import Mathlib

/- Shallow embedding of the pm2-log-server core: the LogManager (process
   registry and per-process bounded log buffers), the filter/format utility
   functions, and the WebSocket LogServer's subscription and delivery
   handlers, translated from the TypeScript sources. -/

/-- Lookup in an association list, mirroring JavaScript Map.get. -/
def mapGet {α β : Type} [DecidableEq α] : List (α × β) → α → Option β
  | [], _ => none
  | (k', v) :: rest, k => if k' = k then some v else mapGet rest k

/-- Update/insert in an association list, mirroring JavaScript Map.set:
    an existing key keeps its position, a new key is appended. -/
def mapSet {α β : Type} [DecidableEq α] : List (α × β) → α → β → List (α × β)
  | [], k, v => [(k, v)]
  | (k', v') :: rest, k, v =>
    if k' = k then (k, v) :: rest else (k', v') :: mapSet rest k v

/-- Delete from an association list, mirroring JavaScript Map.delete
    (Map keys are unique, so removing every pair with the key coincides
    with removing the single entry). -/
def mapDel {α β : Type} [DecidableEq α] (m : List (α × β)) (k : α) : List (α × β) :=
  m.filter (fun p => decide (p.1 ≠ k))

/-- Insertion-ordered set add, mirroring JavaScript Set.add. -/
def setAdd (s : List String) (x : String) : List String :=
  if x ∈ s then s else s ++ [x]

/-- Set removal, mirroring JavaScript Set.delete. -/
def setDel (s : List String) (x : String) : List String :=
  s.filter (fun y => decide (y ≠ x))

/-- The last `n` elements of a list, in order: the semantics of
    JavaScript Array.slice(-n) for n ≥ 1. -/
def takeLast {α : Type} (n : Nat) (l : List α) : List α :=
  l.drop (l.length - n)

theorem takeLast_length_le {α : Type} (n : Nat) (l : List α) :
    (takeLast n l).length ≤ n := by
  simp only [takeLast, List.length_drop]
  omega

theorem takeLast_length {α : Type} (n : Nat) (l : List α) :
    (takeLast n l).length = min n l.length := by
  simp only [takeLast, List.length_drop]
  omega

theorem takeLast_of_length_le {α : Type} {n : Nat} {l : List α}
    (h : l.length ≤ n) : takeLast n l = l := by
  simp only [takeLast]
  have : l.length - n = 0 := by omega
  simp [this]

theorem takeLast_append_takeLast {α : Type} (n : Nat) (l m : List α) :
    takeLast n (takeLast n l ++ m) = takeLast n (l ++ m) := by
  have hsplit : (l ++ m).drop (l.length - n) = l.drop (l.length - n) ++ m := by
    rw [List.drop_append_eq_append_drop]
    have h0 : l.length - n - l.length = 0 := by omega
    rw [h0, List.drop_zero]
  unfold takeLast
  rw [← hsplit, List.drop_drop]
  congr 1
  simp only [List.length_drop, List.length_append]
  omega

/- ANSI escape stripping.  The source is `text.replace(ansiPattern, '')`
   where `ansiPattern` is the (global) regular expression produced by the
   `ansi-regex` package.  Modelled from the spec: the dependency's pattern
   is not under src/, so the matcher below embeds the ansi-regex pattern
     [\u001B\u009B][[\]()#;?]*
       (?:(?:(?:(?:;[-a-zA-Z\d\/#&.:=?%@~_]+)*
            |[a-zA-Z\d]+(?:;[-a-zA-Z\d\/#&.:=?%@~_]*)*)?
            (?:\u0007|\u001B\|\u009C))
        |(?:(?:\d{1,4}(?:;\d{0,4})*)?[\dA-PR-TZcf-nq-uy=><~]))
   together with JavaScript's leftmost, alternation-ordered, greedy
   backtracking match semantics and global replacement. -/

/-- The ESC character (0x1B). -/
def escChar : Char := Char.ofNat 27

/-- The single-character CSI (0x9B). -/
def csiChar : Char := Char.ofNat 155

/-- The BEL character (0x07). -/
def belChar : Char := Char.ofNat 7

/-- The single-character string terminator ST (0x9C). -/
def stChar : Char := Char.ofNat 156

/-- Membership in the intro class `[[\]()#;?]` of the ansi-regex pattern. -/
def isIntroChar (c : Char) : Bool :=
  c == '[' || c == ']' || c == '(' || c == ')' || c == '#' || c == ';' || c == '?'

/-- Membership in the class `[-a-zA-Z\d\/#&.:=?%@~_]` of the ansi-regex pattern. -/
def isLinkChar (c : Char) : Bool :=
  c == '-' || c.isAlpha || c.isDigit || c == '/' || c == '#' || c == '&' ||
  c == '.' || c == ':' || c == '=' || c == '?' || c == '%' || c == '@' ||
  c == '~' || c == '_'

/-- Membership in `[a-zA-Z\d]`. -/
def isAlnumChar (c : Char) : Bool :=
  c.isAlpha || c.isDigit

/-- Membership in the final-byte class `[\dA-PR-TZcf-nq-uy=><~]`. -/
def isFinalChar (c : Char) : Bool :=
  c.isDigit || ('A' ≤ c && c ≤ 'P') || ('R' ≤ c && c ≤ 'T') || c == 'Z' ||
  c == 'c' || ('f' ≤ c && c ≤ 'n') || ('q' ≤ c && c ≤ 'u') || c == 'y' ||
  c == '=' || c == '>' || c == '<' || c == '~'

/-- Match the string terminator `(?:\u0007|\u001B\|\u009C)`,
    returning the remainder on success. -/
def matchST : List Char → Option (List Char)
  | c :: rest =>
    if c = belChar then some rest
    else if c = escChar then
      match rest with
      | c2 :: rest2 => if c2 = '\\' then some rest2 else none
      | [] => none
    else if c = stChar then some rest
    else none
  | [] => none

/-- Greedy consumption of `(?:;[-a-zA-Z\d\/#&.:=?%@~_]+)*` (each iteration is a
    semicolon followed by at least one link character).  The string-terminator
    characters never occur inside an iteration, so maximal munch agrees with
    the backtracking regex semantics here.  Fueled for termination. -/
def munchB1 : Nat → List Char → List Char
  | 0, cs => cs
  | fuel + 1, ';' :: c2 :: rest =>
    if isLinkChar c2 then munchB1 fuel ((c2 :: rest).dropWhile isLinkChar)
    else ';' :: c2 :: rest
  | _ + 1, cs => cs

/-- Greedy consumption of `(?:;[-a-zA-Z\d\/#&.:=?%@~_]*)*`. -/
def munchSemiX : Nat → List Char → List Char
  | 0, cs => cs
  | fuel + 1, ';' :: rest => munchSemiX fuel (rest.dropWhile isLinkChar)
  | _ + 1, cs => cs

/-- Greedy consumption of `[a-zA-Z\d]+(?:;[-a-zA-Z\d\/#&.:=?%@~_]*)*`
    (only called when the head is alphanumeric). -/
def munchB2 (cs : List Char) : List Char :=
  munchSemiX cs.length (cs.dropWhile isAlnumChar)

/-- The first alternative of the ansi-regex body: an optional parameter part
    followed by a string terminator. -/
def alt1 (cs : List Char) : Option (List Char) :=
  match matchST (munchB1 cs.length cs) with
  | some r => some r
  | none =>
    match cs with
    | c :: _ => if isAlnumChar c then matchST (munchB2 cs) else none
    | [] => none

/-- Match a single final-class character. -/
def matchFinal : List Char → Option (List Char)
  | c :: r => if isFinalChar c then some r else none
  | [] => none

/-- Number of leading decimal digits. -/
def countDigits (cs : List Char) : Nat :=
  (cs.takeWhile Char.isDigit).length

/-- Backtracking match of `(?:;\d{0,4})*` followed by a final-class
    character, in the greedy preference order of the regex engine. -/
def tryGroups : Nat → List Char → Option (List Char)
  | 0, _ => none
  | fuel + 1, cs =>
    match cs with
    | ';' :: rest =>
      let d := min 4 (countDigits rest)
      match ((List.range (d + 1)).map (fun i => d - i)).findSome?
          (fun k => tryGroups fuel (rest.drop k)) with
      | some r => some r
      | none => matchFinal cs
    | _ => matchFinal cs

/-- The second alternative of the ansi-regex body:
    `(?:\d{1,4}(?:;\d{0,4})*)?[\dA-PR-TZcf-nq-uy=><~]`, with the greedy
    backtracking order of the digit counter. -/
def alt2 (cs : List Char) : Option (List Char) :=
  let run := min 4 (countDigits cs)
  let viaDigits :=
    if run = 0 then none
    else ((List.range run).map (fun i => run - i)).findSome?
      (fun k => tryGroups (cs.length + 1) (cs.drop k))
  match viaDigits with
  | some r => some r
  | none => matchFinal cs

/-- Try both alternatives of the body, first alternative first. -/
def tryFrom (cs : List Char) : Option (List Char) :=
  match alt1 cs with
  | some r => some r
  | none => alt2 cs

/-- Greedy-with-backtracking consumption of the intro class `[[\]()#;?]*`,
    then the body alternation: longer intro runs are preferred, as the
    regex engine does. -/
def seekAlt : List Char → Option (List Char)
  | [] => tryFrom []
  | c :: rest =>
    if isIntroChar c then
      match seekAlt rest with
      | some r => some r
      | none => tryFrom (c :: rest)
    else tryFrom (c :: rest)

/-- Match the whole ansi-regex pattern at the head of the character list,
    returning the remainder after the match. -/
def matchAnsi : List Char → Option (List Char)
  | c :: rest => if c = escChar ∨ c = csiChar then seekAlt rest else none
  | [] => none

/-- Left-to-right global replacement of every pattern match by the empty
    string, continuing after each match, exactly as
    `String.prototype.replace` with a global regex does.  Every match
    consumes at least one character, so fuel equal to the length suffices. -/
def stripAnsiAux : Nat → List Char → List Char
  | 0, cs => cs
  | _ + 1, [] => []
  | fuel + 1, c :: rest =>
    match matchAnsi (c :: rest) with
    | some r => stripAnsiAux fuel r
    | none => c :: stripAnsiAux fuel rest

/-- `stripAnsi` from the utility module: replaces every match of the
    ansi-regex pattern with the empty string. -/
def stripAnsi (text : String) : String :=
  String.mk (stripAnsiAux text.data.length text.data)

/-- Stream kind of one log line: `'out' | 'error'` in the source. -/
inductive LogType where
  | out
  | error
deriving DecidableEq, Repr

/-- `LogFilter = LogEntry['type'] | 'all'`. -/
inductive LogFilter where
  | all
  | out
  | error
deriving DecidableEq, Repr

/-- The filter value that equals a given entry type (string equality in
    the source, where both unions share the literals 'out' and 'error'). -/
def LogType.toFilter : LogType → LogFilter
  | .out => .out
  | .error => .error

/-- The serialized name of a log type, as it appears on the wire. -/
def LogType.str : LogType → String
  | .out => "out"
  | .error => "error"

/-- `LogEntry` from types.ts. -/
structure LogEntry where
  timestamp : String
  type : LogType
  message : String
  process : String
deriving DecidableEq, Repr

/-- `ClientOptions` from types.ts. -/
structure ClientOptions where
  filter : LogFilter
  clean : Bool
  json : Bool
  timestamps : Bool
  log_type : Bool
deriving DecidableEq, Repr

/-- JSON string escaping of one character, as JSON.stringify performs it. -/
def jsonEscapeChar (c : Char) : String :=
  if c = '"' then "\\\""
  else if c = '\\' then "\\\\"
  else if c = Char.ofNat 8 then "\\b"
  else if c = Char.ofNat 9 then "\\t"
  else if c = Char.ofNat 10 then "\\n"
  else if c = Char.ofNat 12 then "\\f"
  else if c = Char.ofNat 13 then "\\r"
  else if c.toNat < 32 then
    "\\u00" ++ String.mk [Nat.digitChar (c.toNat / 16), Nat.digitChar (c.toNat % 16)]
  else String.mk [c]

/-- JSON string quoting, as JSON.stringify performs it. -/
def jsonQuote (s : String) : String :=
  "\"" ++ String.join (s.data.map jsonEscapeChar) ++ "\""

/-- `formatLog` from the utility module: optional ANSI stripping, then
    either a JSON record or a prefixed plain line. -/
def formatLog (entry : LogEntry) (options : ClientOptions) : String :=
  let message := if options.clean then stripAnsi entry.message else entry.message
  if options.json then
    "\x7b\"timestamp\":" ++ jsonQuote entry.timestamp ++
    ",\"type\":" ++ jsonQuote entry.type.str ++
    ",\"message\":" ++ jsonQuote message ++
    ",\"process\":" ++ jsonQuote entry.process ++ "\x7d"
  else
    (if options.timestamps then "[" ++ entry.timestamp ++ "] " else "") ++
    (if options.log_type then "[" ++ entry.type.str ++ "] " else "") ++
    message

/-- `shouldIncludeLog` from the utility module used by the WebSocket
    server: a plain string filter. -/
def shouldIncludeLog (entry : LogEntry) (filter : LogFilter) : Bool :=
  if filter = .all then true
  else entry.type.toFilter = filter

/-- Whether the pattern is a leading segment of the text. -/
def headMatches : List Char → List Char → Bool
  | [], _ => true
  | _ :: _, [] => false
  | p :: ps, t :: ts => p == t && headMatches ps ts

/-- Whether the pattern occurs somewhere in the text. -/
def occursIn (pat : List Char) : List Char → Bool
  | [] => headMatches pat []
  | t :: ts => headMatches pat (t :: ts) || occursIn pat ts

/-- JavaScript `String.prototype.includes`: substring containment, with
    the empty pattern contained in every string. -/
def jsIncludes (s pat : String) : Bool :=
  occursIn pat.data s.data

/-- JavaScript `toLowerCase` on one character (ASCII case folding). -/
def jsToLowerChar (c : Char) : Char :=
  if 'A' ≤ c && c ≤ 'Z' then Char.ofNat (c.toNat + 32) else c

/-- JavaScript `String.prototype.toLowerCase`. -/
def jsToLower (s : String) : String :=
  String.mk (s.data.map jsToLowerChar)

/-- `ClientFilterOptions<true>` of the richer utility module: the kind
    axis, an optional substring axis, and an optional compiled regex
    (used only through `.test`, so embedded as a predicate on strings). -/
structure ClientFilterOptions where
  log_type : LogFilter
  text : Option String
  regex : Option (String → Bool)

namespace UtilsB

/-- `shouldIncludeLog` from the richer utility module: the kind filter
    must be 'all' or the entry's kind; a truthy (set and non-empty)
    substring filter must match case-insensitively; a set regex filter
    must match the message. -/
def shouldIncludeLog (entry : LogEntry) (filter : ClientFilterOptions) : Bool :=
  if filter.log_type ≠ .all ∧ filter.log_type ≠ entry.type.toFilter then false
  else if (match filter.text with
           | some t => !(t == "") &&
               !(jsIncludes (jsToLower entry.message) (jsToLower t))
           | none => false) then false
  else if (match filter.regex with
           | some r => !(r entry.message)
           | none => false) then false
  else true

end UtilsB

/-- `ProcessInfo` from types.ts (the fields the LogManager reads). -/
structure ProcessInfo where
  name : String
  pm_id : Nat
deriving DecidableEq, Repr

/-- The mutable state of the `LogManager` class. -/
structure LMState where
  watchedProcesses : List String
  logBuffers : List (String × List LogEntry)
  bufferSize : Nat
  processIdToName : List (Nat × String)
deriving DecidableEq, Repr

/-- The constructor `new LogManager(bufferSize = 100)`. -/
def LMState.init (bufferSize : Nat := 100) : LMState :=
  { watchedProcesses := [], logBuffers := [], bufferSize := bufferSize,
    processIdToName := [] }

/-- `LogManager.registerProcess`. -/
def registerProcess (s : LMState) (processInfo : ProcessInfo) : LMState :=
  { s with
    watchedProcesses := setAdd s.watchedProcesses processInfo.name,
    processIdToName := mapSet s.processIdToName processInfo.pm_id processInfo.name,
    logBuffers :=
      if (mapGet s.logBuffers processInfo.name).isSome then s.logBuffers
      else mapSet s.logBuffers processInfo.name [] }

/-- `LogManager.unregisterProcess`. -/
def unregisterProcess (s : LMState) (name : String) (pm_id : Option Nat) : LMState :=
  { s with
    watchedProcesses := setDel s.watchedProcesses name,
    processIdToName :=
      match pm_id with
      | some i => mapDel s.processIdToName i
      | none => s.processIdToName }

/-- The buffer update inside `LogManager.addToBuffer`: push, then shift
    once if the length exceeds the configured size. -/
def bufPush (size : Nat) (buffer : List LogEntry) (entry : LogEntry) : List LogEntry :=
  let b := buffer ++ [entry]
  if size < b.length then b.tail else b

/-- `LogManager.addToBuffer`. -/
def addToBuffer (s : LMState) (name : String) (entry : LogEntry) : LMState :=
  { s with
    logBuffers :=
      mapSet s.logBuffers name
        (bufPush s.bufferSize ((mapGet s.logBuffers name).getD []) entry) }

/-- JavaScript whitespace, for `String.prototype.trim`: ASCII whitespace
    plus NBSP and the BOM (the code points that can occur in log lines). -/
def isJsWhitespace (c : Char) : Bool :=
  c == ' ' || c == '\t' || c == '\n' || c == '\r' ||
  c == Char.ofNat 11 || c == Char.ofNat 12 ||
  c == Char.ofNat 160 || c == Char.ofNat 65279

/-- JavaScript `line.trim()`. -/
def jsTrim (s : String) : String :=
  String.mk (((s.data.dropWhile isJsWhitespace).reverse.dropWhile
    isJsWhitespace).reverse)

/-- JavaScript `data.split('\n')`: the pieces between newline separators,
    with boundary pieces kept (possibly empty). -/
def splitNl : List Char → List Char → List String
  | acc, [] => [String.mk acc.reverse]
  | acc, c :: rest =>
    if c = '\n' then String.mk acc.reverse :: splitNl [] rest
    else splitNl (c :: acc) rest

/-- The line splitting of `handleLog`:
    `data.toString().split('\n').filter((line) => line.trim())`. -/
def splitLines (data : String) : List String :=
  (splitNl [] data.data).filter (fun line => !(jsTrim line == ""))

/-- `LogManager.handleLog`: resolve the pm_id, drop the payload if the
    name is falsy or not watched, otherwise buffer and emit one entry per
    non-blank line.  `now` stands for `new Date().toISOString()`; the
    returned list is the sequence of `emit('log', name, entry)` calls in
    order. -/
def handleLog (s : LMState) (pm_id : Nat) (type : LogType) (data : String)
    (now : String) : LMState × List (String × LogEntry) :=
  match mapGet s.processIdToName pm_id with
  | none => (s, [])
  | some name =>
    if name = "" ∨ name ∉ s.watchedProcesses then (s, [])
    else
      (splitLines data).foldl
        (fun acc line =>
          let entry : LogEntry :=
            { timestamp := now, type := type, message := line, process := name }
          (addToBuffer acc.1 name entry, acc.2 ++ [(name, entry)]))
        (s, [])

/-- `LogManager.getRecentLogs`: a truthy count returns `buffer.slice(-count)`,
    otherwise a copy of the whole buffer; an unknown name yields `[]`. -/
def getRecentLogs (s : LMState) (name : String) (count : Option Nat) : List LogEntry :=
  let buffer := (mapGet s.logBuffers name).getD []
  match count with
  | some c => if c = 0 then buffer else takeLast c buffer
  | none => buffer

/-- `LogManager.getWatchedProcesses`. -/
def getWatchedProcesses (s : LMState) : List String :=
  s.watchedProcesses

/-- `LogManager.getProcessByPmId`. -/
def getProcessByPmId (s : LMState) (pm_id : Nat) : Option String :=
  mapGet s.processIdToName pm_id

/-- `LogManager.cleanup`: clears the watched set, the id map and all
    buffers. -/
def cleanup (s : LMState) : LMState :=
  { s with watchedProcesses := [], processIdToName := [], logBuffers := [] }

/-- The configuration fields of `PluginConfig` that the WebSocket server's
    handlers read; in the source `authToken` is a string and "no token
    configured" is its falsiness, i.e. the empty string. -/
structure ServerConfig where
  authToken : String
deriving DecidableEq, Repr

/-- `ClientConnection` of the WebSocket server; `id` stands for the `ws`
    handle identity (Map keys are distinct sockets). -/
structure ClientConnection where
  id : Nat
  authenticated : Bool
  subscriptions : List String
  options : ClientOptions
deriving DecidableEq, Repr

/-- The connection state built in `setupWebSocket` for a new socket:
    auto-authenticated exactly when no auth token is configured, no
    subscriptions, default options. -/
def newClient (config : ServerConfig) (id : Nat) : ClientConnection :=
  { id := id,
    authenticated := config.authToken = "",
    subscriptions := [],
    options :=
      { filter := .all, clean := false, json := true,
        log_type := false, timestamps := false } }

/-- The messages a handler can send back on one socket. -/
inductive ServerMsg where
  | errorMsg (message : String)
  | subscribed (process : String) (subscriptions : List String)
  | unsubscribed (process : String)
  | unsubscribedAll
  | optionsUpdated (options : ClientOptions)
  | logMsg (clientId : Nat) (formatted : String)
deriving DecidableEq, Repr

/-- `LogServer.sendLog`: drop the entry if the client's filter excludes
    it, otherwise send the formatted entry (the returned value is what
    `ws.send` receives). -/
def sendLog (client : ClientConnection) (entry : LogEntry) : Option String :=
  if shouldIncludeLog entry client.options.filter then
    some (formatLog entry client.options)
  else none

/-- The `'log'` listener installed by `setupLogHandlers`: for one emitted
    entry, every authenticated client subscribed to the process name gets
    the entry through `sendLog`, in client-table order. -/
def onLogEntry (clients : List ClientConnection) (name : String)
    (entry : LogEntry) : List (Nat × String) :=
  clients.filterMap
    (fun c =>
      if c.authenticated = true ∧ name ∈ c.subscriptions then
        (sendLog c entry).map (fun f => (c.id, f))
      else none)

/-- All deliveries caused by the emissions of one `handleLog` call, in
    emission order. -/
def ingestDeliveries (clients : List ClientConnection)
    (emitted : List (String × LogEntry)) : List (Nat × String) :=
  (emitted.map (fun p => onLogEntry clients p.1 p.2)).flatten

/-- A partial options object carried by an `options` message. -/
structure ClientOptionsPatch where
  filter : Option LogFilter
  clean : Option Bool
  json : Option Bool
  timestamps : Option Bool
  log_type : Option Bool
deriving DecidableEq, Repr

/-- The spread merge `{ ...client.options, ...message.options }`. -/
def mergeOptions (o : ClientOptions) (p : ClientOptionsPatch) : ClientOptions :=
  { filter := p.filter.getD o.filter,
    clean := p.clean.getD o.clean,
    json := p.json.getD o.json,
    timestamps := p.timestamps.getD o.timestamps,
    log_type := p.log_type.getD o.log_type }

/-- `LogServer.handleSubscribe`: reject unauthenticated clients and falsy
    or unknown process names; `"*"` subscribes to every currently watched
    process; then replay up to 20 recent entries per target through
    `sendLog`. -/
def handleSubscribe (lm : LMState) (client : ClientConnection)
    (processName : Option String) : ClientConnection × List ServerMsg :=
  if client.authenticated = false then
    (client, [.errorMsg "Not authenticated"])
  else
    match processName with
    | none => (client, [.errorMsg "Process name required"])
    | some pname =>
      if pname = "" then (client, [.errorMsg "Process name required"])
      else
        let processes := getWatchedProcesses lm
        if pname ≠ "*" ∧ pname ∉ processes then
          (client, [.errorMsg ("Process \"" ++ pname ++ "\" not found")])
        else
          let client' :=
            if pname = "*" then
              { client with subscriptions := processes.foldl setAdd client.subscriptions }
            else
              { client with subscriptions := setAdd client.subscriptions pname }
          let targets := if pname = "*" then processes else [pname]
          let replay :=
            (targets.map
              (fun target =>
                (getRecentLogs lm target (some 20)).filterMap
                  (fun log => (sendLog client' log).map
                    (fun f => ServerMsg.logMsg client.id f)))).flatten
          (client', [.subscribed pname client'.subscriptions] ++ replay)

/-- `LogServer.handleUnsubscribe`: reject unauthenticated clients; a falsy
    process name or `"*"` clears all subscriptions, otherwise the one name
    is removed. -/
def handleUnsubscribe (client : ClientConnection)
    (processName : Option String) : ClientConnection × List ServerMsg :=
  if client.authenticated = false then
    (client, [.errorMsg "Not authenticated"])
  else
    match processName with
    | none => ({ client with subscriptions := [] }, [.unsubscribedAll])
    | some pname =>
      if pname = "" then ({ client with subscriptions := [] }, [.unsubscribedAll])
      else if pname = "*" then
        ({ client with subscriptions := [] }, [.unsubscribed pname])
      else
        ({ client with subscriptions := setDel client.subscriptions pname },
         [.unsubscribed pname])

/-- `LogServer.handleOptions`: reject unauthenticated clients; a present
    options object is spread-merged into the client's options. -/
def handleOptions (client : ClientConnection)
    (patch : Option ClientOptionsPatch) : ClientConnection × List ServerMsg :=
  if client.authenticated = false then
    (client, [.errorMsg "Not authenticated"])
  else
    match patch with
    | some p =>
      let merged := mergeOptions client.options p
      ({ client with options := merged }, [.optionsUpdated merged])
    | none => (client, [])

theorem mapGet_mapSet_self {α β : Type} [DecidableEq α]
    (m : List (α × β)) (k : α) (v : β) :
    mapGet (mapSet m k v) k = some v := by
  induction m with
  | nil => simp [mapSet, mapGet]
  | cons p rest ih =>
    obtain ⟨k', v'⟩ := p
    by_cases h : k' = k <;> simp [mapSet, mapGet, h, ih]

theorem mapGet_mapSet_ne {α β : Type} [DecidableEq α]
    (m : List (α × β)) {k k' : α} (v : β) (h : k' ≠ k) :
    mapGet (mapSet m k v) k' = mapGet m k' := by
  have hk : ¬ k = k' := fun hh => h (Eq.symm hh)
  induction m with
  | nil => simp [mapSet, mapGet, hk]
  | cons p rest ih =>
    obtain ⟨k0, v0⟩ := p
    by_cases h0 : k0 = k
    · subst h0
      simp [mapSet, mapGet, hk]
    · simp [mapSet, mapGet, h0, ih]

theorem mapGet_mapDel_self {α β : Type} [DecidableEq α]
    (m : List (α × β)) (k : α) :
    mapGet (mapDel m k) k = none := by
  induction m with
  | nil => simp [mapDel, mapGet]
  | cons p rest ih =>
    obtain ⟨k0, v0⟩ := p
    by_cases h0 : k0 = k
    · simpa [mapDel, h0] using ih
    · simpa [mapDel, mapGet, h0] using ih

theorem mem_setAdd {s : List String} {x y : String} :
    y ∈ setAdd s x ↔ y ∈ s ∨ y = x := by
  unfold setAdd
  by_cases h : x ∈ s
  · simp only [if_pos h]
    constructor
    · exact fun hy => Or.inl hy
    · rintro (hy | rfl) <;> [exact hy; exact h]
  · simp [if_neg h]

theorem mem_foldl_setAdd (l : List String) (s : List String) (y : String) :
    y ∈ l.foldl setAdd s ↔ y ∈ s ∨ y ∈ l := by
  induction l generalizing s with
  | nil => simp
  | cons x xs ih =>
    simp only [List.foldl_cons, ih, mem_setAdd, List.mem_cons]
    tauto

theorem bufPush_eq_takeLast {size : Nat} {old : List LogEntry}
    (e : LogEntry) (h : old.length ≤ size) :
    bufPush size old e = takeLast size (old ++ [e]) := by
  unfold bufPush takeLast
  simp only [List.length_append, List.length_cons, List.length_nil]
  by_cases hlt : size < old.length + 1
  · have h1 : old.length + 1 - size = 1 := by omega
    simp [hlt, h1, List.drop_one]
  · have h0 : old.length + 1 - size = 0 := by omega
    simp [hlt, h0]

theorem foldl_bufPush {size : Nat} (es : List LogEntry) (old : List LogEntry)
    (h : old.length ≤ size) :
    es.foldl (bufPush size) old = takeLast size (old ++ es) := by
  induction es generalizing old with
  | nil => simp [takeLast_of_length_le h]
  | cons e es ih =>
    have hlen : (bufPush size old e).length ≤ size := by
      rw [bufPush_eq_takeLast e h]
      exact takeLast_length_le _ _
    rw [List.foldl_cons, ih _ hlen, bufPush_eq_takeLast e h,
      takeLast_append_takeLast]
    simp

theorem addToBuffer_frame (s : LMState) (name : String) (e : LogEntry) :
    (addToBuffer s name e).watchedProcesses = s.watchedProcesses ∧
    (addToBuffer s name e).bufferSize = s.bufferSize ∧
    (addToBuffer s name e).processIdToName = s.processIdToName := by
  simp [addToBuffer]

theorem addToBuffer_get_self (s : LMState) (name : String) (e : LogEntry) :
    mapGet (addToBuffer s name e).logBuffers name =
      some (bufPush s.bufferSize ((mapGet s.logBuffers name).getD []) e) := by
  simp [addToBuffer, mapGet_mapSet_self]

theorem addToBuffer_get_ne (s : LMState) {name other : String} (e : LogEntry)
    (h : other ≠ name) :
    mapGet (addToBuffer s name e).logBuffers other = mapGet s.logBuffers other := by
  simp [addToBuffer, mapGet_mapSet_ne _ _ h]

/-- Folding `addToBuffer` over a list of entries touches only the one
    buffer, where it folds `bufPush`. -/
theorem foldl_addToBuffer (es : List LogEntry) (s : LMState) (name : String) :
    ((es.foldl (fun t e => addToBuffer t name e) s).watchedProcesses
        = s.watchedProcesses) ∧
    ((es.foldl (fun t e => addToBuffer t name e) s).bufferSize = s.bufferSize) ∧
    ((es.foldl (fun t e => addToBuffer t name e) s).processIdToName
        = s.processIdToName) ∧
    ((mapGet (es.foldl (fun t e => addToBuffer t name e) s).logBuffers name).getD []
        = es.foldl (bufPush s.bufferSize) ((mapGet s.logBuffers name).getD [])) ∧
    (∀ other, other ≠ name →
      mapGet (es.foldl (fun t e => addToBuffer t name e) s).logBuffers other
        = mapGet s.logBuffers other) := by
  induction es generalizing s with
  | nil => simp
  | cons e es ih =>
    obtain ⟨ih1, ih2, ih3, ih4, ih5⟩ := ih (addToBuffer s name e)
    refine ⟨?_, ?_, ?_, ?_, ?_⟩
    · simpa [addToBuffer] using ih1
    · simpa [addToBuffer] using ih2
    · simpa [addToBuffer] using ih3
    · rw [List.foldl_cons, ih4, addToBuffer_get_self]
      simp [addToBuffer]
    · intro other hother
      rw [List.foldl_cons, ih5 other hother, addToBuffer_get_ne _ _ hother]

/-- One log entry as `handleLog` builds it for one line. -/
def mkEntry (now : String) (type : LogType) (name : String) (line : String) : LogEntry :=
  { timestamp := now, type := type, message := line, process := name }

/-- The entries a resolved, watched, non-empty name produces for a payload. -/
def mkEntries (now : String) (type : LogType) (name : String)
    (data : String) : List LogEntry :=
  (splitLines data).map (mkEntry now type name)

theorem handleLog_loop (lines : List String) (name now : String)
    (type : LogType) (s : LMState) (acc : List (String × LogEntry)) :
    lines.foldl
        (fun acc line =>
          let entry : LogEntry :=
            { timestamp := now, type := type, message := line, process := name }
          (addToBuffer acc.1 name entry, acc.2 ++ [(name, entry)]))
        (s, acc) =
      ((lines.map (mkEntry now type name)).foldl
        (fun t e => addToBuffer t name e) s,
       acc ++ (lines.map (mkEntry now type name)).map (fun e => (name, e))) := by
  induction lines generalizing s acc with
  | nil => simp
  | cons l ls ih => simp [ih, mkEntry]

/-- Unfolding of `handleLog` in the delivering case. -/
theorem handleLog_resolved {s : LMState} {pm_id : Nat} {name : String}
    (type : LogType) (data now : String)
    (hres : mapGet s.processIdToName pm_id = some name)
    (hne : name ≠ "") (hw : name ∈ s.watchedProcesses) :
    handleLog s pm_id type data now =
      ((mkEntries now type name data).foldl (fun t e => addToBuffer t name e) s,
       (mkEntries now type name data).map (fun e => (name, e))) := by
  unfold handleLog
  rw [hres]
  dsimp only
  rw [if_neg (by simp [hne, hw])]
  simpa [mkEntries] using handleLog_loop (splitLines data) name now type s []

/-- Unfolding of `handleLog` in the dropping case. -/
theorem handleLog_dropped {s : LMState} {pm_id : Nat}
    (type : LogType) (data now : String)
    (h : mapGet s.processIdToName pm_id = none ∨
         ∃ name, mapGet s.processIdToName pm_id = some name ∧
           (name = "" ∨ name ∉ s.watchedProcesses)) :
    handleLog s pm_id type data now = (s, []) := by
  unfold handleLog
  rcases h with h | ⟨name, hres, hcase⟩
  · rw [h]
  · rw [hres]
    simp [hcase]

/-- A string in which no ANSI match can start: it contains neither ESC
    nor the one-character CSI. -/
def noAnsiStart (s : String) : Bool :=
  s.data.all (fun c => decide (¬(c = escChar ∨ c = csiChar)))

theorem stripAnsiAux_id (cs : List Char) (fuel : Nat)
    (h : ∀ c ∈ cs, ¬(c = escChar ∨ c = csiChar)) (hlen : cs.length ≤ fuel) :
    stripAnsiAux fuel cs = cs := by
  induction cs generalizing fuel with
  | nil => cases fuel <;> rfl
  | cons c rest ih =>
    cases fuel with
    | zero => simp at hlen
    | succ f =>
      have hc : ¬(c = escChar ∨ c = csiChar) := h c (by simp)
      have hm : matchAnsi (c :: rest) = none := by
        simp [matchAnsi, hc]
      have hlen' : rest.length ≤ f := by
        simp at hlen
        omega
      simp only [stripAnsiAux, hm]
      rw [ih f (fun x hx => h x (by simp [hx])) hlen']

theorem stripAnsi_of_noAnsiStart {s : String} (h : noAnsiStart s = true) :
    stripAnsi s = s := by
  have hall : ∀ c ∈ s.data, ¬(c = escChar ∨ c = csiChar) := by
    simpa [noAnsiStart, List.all_eq_true] using h
  unfold stripAnsi
  rw [stripAnsiAux_id s.data s.data.length hall (le_refl _)]

/-- The payloads sent to one socket, in send order. -/
def deliveredTo (clientId : Nat) (deliveries : List (Nat × String)) : List String :=
  deliveries.filterMap (fun p => if p.1 = clientId then some p.2 else none)

theorem deliveredTo_append (cid : Nat) (x y : List (Nat × String)) :
    deliveredTo cid (x ++ y) = deliveredTo cid x ++ deliveredTo cid y := by
  simp [deliveredTo, List.filterMap_append]

theorem onLogEntry_cons (d : ClientConnection) (rest : List ClientConnection)
    (n : String) (e : LogEntry) :
    onLogEntry (d :: rest) n e =
      (if d.authenticated = true ∧ n ∈ d.subscriptions then
        ((sendLog d e).map (fun f => (d.id, f))).toList
       else []) ++ onLogEntry rest n e := by
  by_cases hd : d.authenticated = true ∧ n ∈ d.subscriptions
  · simp only [onLogEntry, List.filterMap_cons, if_pos hd]
    cases sendLog d e <;> simp
  · simp only [onLogEntry, List.filterMap_cons, if_neg hd]
    simp

theorem onLogEntry_not_mine (clients : List ClientConnection) (cid : Nat)
    (n : String) (e : LogEntry) (h : ∀ c' ∈ clients, c'.id ≠ cid) :
    deliveredTo cid (onLogEntry clients n e) = [] := by
  induction clients with
  | nil => rfl
  | cons d rest ih =>
    rw [onLogEntry_cons, deliveredTo_append, ih (fun c' hc' => h c' (by simp [hc']))]
    have hd := h d (by simp)
    by_cases hcond : d.authenticated = true ∧ n ∈ d.subscriptions
    · simp only [if_pos hcond]
      cases sendLog d e <;> simp [deliveredTo, hd]
    · simp [if_neg hcond, deliveredTo]

/-- What one client receives from the `'log'` handler for one entry:
    exactly one formatted copy when it is subscribed to the name and its
    filter passes, nothing otherwise (given distinct socket identities and
    the invariant that unauthenticated clients have no subscriptions). -/
theorem onLogEntry_self (clients : List ClientConnection) (c : ClientConnection)
    (n : String) (e : LogEntry) (hmem : c ∈ clients)
    (hids : (clients.map (fun x => x.id)).Nodup)
    (hauth : ∀ c' ∈ clients, c'.authenticated = false → c'.subscriptions = []) :
    deliveredTo c.id (onLogEntry clients n e) =
      (if n ∈ c.subscriptions ∧ shouldIncludeLog e c.options.filter = true then
        [formatLog e c.options] else []) := by
  induction clients with
  | nil => cases hmem
  | cons d rest ih =>
    rw [onLogEntry_cons, deliveredTo_append]
    rcases List.mem_cons.mp hmem with rfl | hmemr
    · have hrest : ∀ c' ∈ rest, c'.id ≠ c.id := by
        intro c' hc' heq
        have h1 : c'.id ∈ rest.map (fun x => x.id) :=
          List.mem_map_of_mem (fun x => x.id) hc'
        rw [heq] at h1
        exact (List.nodup_cons.mp hids).1 h1
      rw [onLogEntry_not_mine rest c.id n e hrest, List.append_nil]
      by_cases hcauth : c.authenticated = true
      · by_cases hsub : n ∈ c.subscriptions
        · rw [if_pos ⟨hcauth, hsub⟩]
          by_cases hinc : shouldIncludeLog e c.options.filter = true
          · rw [if_pos ⟨hsub, hinc⟩]
            simp [sendLog, hinc, deliveredTo]
          · rw [if_neg (fun hh => hinc hh.2)]
            simp only [sendLog]
            rw [if_neg (fun hh => hinc hh)]
            simp [deliveredTo]
        · rw [if_neg (fun hh => hsub hh.2), if_neg (fun hh => hsub hh.1)]
          simp [deliveredTo]
      · have hsubs : c.subscriptions = [] :=
          hauth c (by simp) (by simpa using hcauth)
        rw [if_neg (fun hh => hcauth hh.1), if_neg (fun hh => by
          rw [hsubs] at hh
          exact (List.not_mem_nil n) hh.1)]
        simp [deliveredTo]
    · have hdid : d.id ≠ c.id := by
        intro heq
        have h1 : c.id ∈ rest.map (fun x => x.id) :=
          List.mem_map_of_mem (fun x => x.id) hmemr
        rw [← heq] at h1
        exact (List.nodup_cons.mp hids).1 h1
      have hzero : deliveredTo c.id
          (if d.authenticated = true ∧ n ∈ d.subscriptions then
            ((sendLog d e).map (fun f => (d.id, f))).toList
           else []) = [] := by
        by_cases hcond : d.authenticated = true ∧ n ∈ d.subscriptions
        · simp only [if_pos hcond]
          cases sendLog d e <;> simp [deliveredTo, hdid]
        · simp [if_neg hcond, deliveredTo]
      rw [hzero, List.nil_append]
      exact ih hmemr (List.nodup_cons.mp hids).2
        (fun c' hc' => hauth c' (by simp [hc']))

/-- The C1 scenario start: capacity 3, process "app" registered under id 1. -/
def c1demo0 : LMState :=
  registerProcess (LMState.init 3) { name := "app", pm_id := 1 }

/-- The C1 scenario: lines "a", "b", "c", "d" ingested in order. -/
def c1demo : LMState :=
  (handleLog
    ((handleLog
      ((handleLog
        ((handleLog c1demo0 1 .out "a" "t1").1)
        1 .out "b" "t2").1)
      1 .out "c" "t3").1)
    1 .out "d" "t4").1

/-- C1: a buffer that respects the capacity keeps respecting it under any
    sequence of appends, and ends up holding exactly the last
    `bufferSize` entries of the arrival sequence; concretely, with
    capacity 3 and lines "a","b","c","d" for "app", `getRecentLogs`
    returns exactly the entries for "b","c","d" in order. -/
theorem c1_ring_buffer :
    (∀ (s : LMState) (name : String) (es : List LogEntry),
      ((mapGet s.logBuffers name).getD []).length ≤ s.bufferSize →
      (((mapGet ((es.foldl (fun t e => addToBuffer t name e) s)).logBuffers
            name).getD []).length ≤ s.bufferSize ∧
        (mapGet ((es.foldl (fun t e => addToBuffer t name e) s)).logBuffers
            name).getD [] =
          takeLast s.bufferSize (((mapGet s.logBuffers name).getD []) ++ es))) ∧
    getRecentLogs c1demo "app" none =
      [mkEntry "t2" .out "app" "b", mkEntry "t3" .out "app" "c",
       mkEntry "t4" .out "app" "d"] := by
  constructor
  · intro s name es h
    obtain ⟨-, -, -, h4, -⟩ := foldl_addToBuffer es s name
    rw [h4, foldl_bufPush es _ h]
    exact ⟨takeLast_length_le _ _, rfl⟩
  · decide

/-- Witness for C1 at a concrete input. -/
theorem c1_ring_buffer_witness :
    ((mapGet (([mkEntry "t1" .out "app" "a", mkEntry "t2" .out "app" "b",
        mkEntry "t3" .out "app" "c", mkEntry "t4" .out "app" "d"].foldl
          (fun t e => addToBuffer t "app" e) (LMState.init 3))).logBuffers
        "app").getD []).length ≤ (LMState.init 3).bufferSize ∧
    (mapGet (([mkEntry "t1" .out "app" "a", mkEntry "t2" .out "app" "b",
        mkEntry "t3" .out "app" "c", mkEntry "t4" .out "app" "d"].foldl
          (fun t e => addToBuffer t "app" e) (LMState.init 3))).logBuffers
        "app").getD [] =
      takeLast (LMState.init 3).bufferSize
        (((mapGet (LMState.init 3).logBuffers "app").getD []) ++
          [mkEntry "t1" .out "app" "a", mkEntry "t2" .out "app" "b",
           mkEntry "t3" .out "app" "c", mkEntry "t4" .out "app" "d"]) :=
  c1_ring_buffer.1 (LMState.init 3) "app"
    [mkEntry "t1" .out "app" "a", mkEntry "t2" .out "app" "b",
     mkEntry "t3" .out "app" "c", mkEntry "t4" .out "app" "d"]
    (by decide)

/-- C2 (amended: a resolved name must also be non-empty — the source
    checks `!name`, which drops the empty name even when it is watched):
    an unresolved id, an empty resolved name or an unwatched name leaves
    the state unchanged and emits nothing; otherwise the payload is split
    into its non-blank lines in order, each line's entry is appended to
    that process's buffer and emitted, in order. -/
theorem c2_handleLog :
    ∀ (s : LMState) (pm_id : Nat) (type : LogType) (data now : String),
      (mapGet s.processIdToName pm_id = none →
        handleLog s pm_id type data now = (s, [])) ∧
      (∀ name, mapGet s.processIdToName pm_id = some name →
        (name = "" ∨ name ∉ s.watchedProcesses) →
        handleLog s pm_id type data now = (s, [])) ∧
      (∀ name, mapGet s.processIdToName pm_id = some name → name ≠ "" →
        name ∈ s.watchedProcesses →
        ((handleLog s pm_id type data now).2 =
          (splitLines data).map (fun line => (name, mkEntry now type name line)) ∧
        (((mapGet s.logBuffers name).getD []).length ≤ s.bufferSize →
          (mapGet (handleLog s pm_id type data now).1.logBuffers name).getD [] =
            takeLast s.bufferSize
              (((mapGet s.logBuffers name).getD []) ++ mkEntries now type name data)) ∧
        (∀ other, other ≠ name →
          mapGet (handleLog s pm_id type data now).1.logBuffers other =
            mapGet s.logBuffers other) ∧
        (handleLog s pm_id type data now).1.watchedProcesses = s.watchedProcesses ∧
        (handleLog s pm_id type data now).1.processIdToName = s.processIdToName)) := by
  intro s pm_id type data now
  refine ⟨?_, ?_, ?_⟩
  · intro h
    exact handleLog_dropped type data now (Or.inl h)
  · intro name hres hcase
    exact handleLog_dropped type data now (Or.inr ⟨name, hres, hcase⟩)
  · intro name hres hne hw
    rw [handleLog_resolved type data now hres hne hw]
    obtain ⟨h1, h2, h3, h4, h5⟩ :=
      foldl_addToBuffer (mkEntries now type name data) s name
    refine ⟨?_, ?_, ?_, h1, h3⟩
    · simp [mkEntries, List.map_map]
    · intro hlen
      simpa [h4] using foldl_bufPush (mkEntries now type name data) _ hlen
    · intro other hother
      exact h5 other hother

/-- The state of the C2 counterexample: the empty name registered and
    watched under id 5. -/
def c2state : LMState :=
  registerProcess (LMState.init 100) { name := "", pm_id := 5 }

/-- C2 counterexample: id 5 resolves to a name that is in the watched
    set, the payload has a non-blank line, yet `handleLog` changes
    nothing and emits nothing (the source's `!name` check also drops the
    empty name). -/
theorem c2_counterexample :
    mapGet c2state.processIdToName 5 = some "" ∧
    "" ∈ c2state.watchedProcesses ∧
    splitLines "hello" = ["hello"] ∧
    handleLog c2state 5 .out "hello" "t0" = (c2state, []) := by
  decide

/-- Witness for C2 at a concrete input. -/
theorem c2_handleLog_witness :
    (handleLog c1demo0 1 .out "x\ny" "t").2 =
      (splitLines "x\ny").map (fun line => ("app", mkEntry "t" .out "app" line)) ∧
    (mapGet (handleLog c1demo0 1 .out "x\ny" "t").1.logBuffers "app").getD [] =
      takeLast c1demo0.bufferSize
        (((mapGet c1demo0.logBuffers "app").getD []) ++
          mkEntries "t" .out "app" "x\ny") :=
  ⟨((c2_handleLog c1demo0 1 .out "x\ny" "t").2.2 "app" (by decide) (by decide)
      (by decide)).1,
   ((c2_handleLog c1demo0 1 .out "x\ny" "t").2.2 "app" (by decide) (by decide)
      (by decide)).2.1 (by decide)⟩

/-- The state of the C4 counterexample: "app" registered under id 1 and
    then re-registered under id 2, with no unregister in between. -/
def c4state : LMState :=
  registerProcess (registerProcess (LMState.init 100) { name := "app", pm_id := 1 })
    { name := "app", pm_id := 2 }

/-- C4 counterexample: after re-registering "app" under the new id 2, the
    registry still maps the old id 1 to "app" (two reverse entries for
    one name), and a log arriving under the stale id 1 is still
    delivered. -/
theorem c4_counterexample :
    mapGet c4state.processIdToName 1 = some "app" ∧
    mapGet c4state.processIdToName 2 = some "app" ∧
    (handleLog c4state 1 .out "x" "t").2 = [("app", mkEntry "t" .out "app" "x")] := by
  decide

/-- C4 (amended: `registerProcess` itself never drops an old id binding,
    so the registry can hold several ids for one name; the stale-id
    guarantee holds only because `unregisterProcess`, when given the old
    id, removes that binding — after unregister(name, oldId) and
    re-register under a fresh newId, a `handleLog` under the stale oldId
    resolves to nothing, changes no state and emits nothing). -/
theorem c4_stale_id :
    ∀ (s : LMState) (name : String) (oldId newId : Nat) (type : LogType)
      (data now : String), oldId ≠ newId →
      (mapGet (registerProcess (unregisterProcess s name (some oldId))
          { name := name, pm_id := newId }).processIdToName oldId = none ∧
       handleLog (registerProcess (unregisterProcess s name (some oldId))
          { name := name, pm_id := newId }) oldId type data now =
         (registerProcess (unregisterProcess s name (some oldId))
          { name := name, pm_id := newId }, [])) := by
  intro s name oldId newId type data now hne
  have hget : mapGet (registerProcess (unregisterProcess s name (some oldId))
      { name := name, pm_id := newId }).processIdToName oldId = none := by
    show mapGet (mapSet (mapDel s.processIdToName oldId) newId name) oldId = none
    rw [mapGet_mapSet_ne _ _ hne, mapGet_mapDel_self]
  exact ⟨hget, handleLog_dropped type data now (Or.inl hget)⟩

/-- Witness for C4 at a concrete input. -/
theorem c4_stale_id_witness :
    mapGet (registerProcess (unregisterProcess c4state "app" (some 1))
        { name := "app", pm_id := 3 }).processIdToName 1 = none ∧
    handleLog (registerProcess (unregisterProcess c4state "app" (some 1))
        { name := "app", pm_id := 3 }) 1 .out "x" "t" =
      (registerProcess (unregisterProcess c4state "app" (some 1))
        { name := "app", pm_id := 3 }, []) :=
  c4_stale_id c4state "app" 1 3 .out "x" "t" (by decide)

/-- The state of the C7 counterexample and the ghost scenario: "app"
    registered with one buffered line. -/
def c7state : LMState :=
  (handleLog (registerProcess (LMState.init 100) { name := "app", pm_id := 1 })
    1 .out "x" "t").1

/-- C7 counterexample: with one buffered entry, `getRecentLogs` with
    count 0 returns the whole buffer (one entry) instead of the
    min(0, len) = 0 entries the claim promises — `if (count)` treats 0 as
    absent. -/
theorem c7_counterexample :
    getRecentLogs c7state "app" (some 0) = [mkEntry "t" .out "app" "x"] ∧
    min 0 ((mapGet c7state.logBuffers "app").getD []).length = 0 := by
  decide

/-- C7 (amended: for every positive count, `getRecentLogs` returns the
    most recent min(count, len) buffered entries in arrival order; count
    0 behaves like an omitted count and returns the whole buffer; a name
    with no buffer yields the empty list; and the never-registered
    "ghost" is absent from the watched list). -/
theorem c7_getRecentLogs :
    (∀ (s : LMState) (name : String) (c : Nat), 1 ≤ c →
      getRecentLogs s name (some c) =
        takeLast c ((mapGet s.logBuffers name).getD []) ∧
      (getRecentLogs s name (some c)).length =
        min c ((mapGet s.logBuffers name).getD []).length) ∧
    (∀ (s : LMState) (name : String),
      getRecentLogs s name none = (mapGet s.logBuffers name).getD [] ∧
      getRecentLogs s name (some 0) = (mapGet s.logBuffers name).getD []) ∧
    (∀ (s : LMState) (name : String) (count : Option Nat),
      mapGet s.logBuffers name = none → getRecentLogs s name count = []) ∧
    (getRecentLogs c7state "ghost" none = [] ∧
     "ghost" ∉ getWatchedProcesses c7state) := by
  refine ⟨?_, ?_, ?_, by decide⟩
  · intro s name c hc
    have hc0 : c ≠ 0 := by omega
    constructor
    · simp [getRecentLogs, hc0]
    · simp [getRecentLogs, hc0, takeLast_length]
  · intro s name
    exact ⟨rfl, by simp [getRecentLogs]⟩
  · intro s name count h
    cases count with
    | none => simp [getRecentLogs, h]
    | some c =>
      by_cases hc0 : c = 0
      · simp [getRecentLogs, h, hc0]
      · simp [getRecentLogs, h, hc0, takeLast]

/-- Witness for C7 at a concrete input. -/
theorem c7_getRecentLogs_witness :
    (getRecentLogs c1demo "app" (some 2) =
      takeLast 2 ((mapGet c1demo.logBuffers "app").getD []) ∧
    (getRecentLogs c1demo "app" (some 2)).length =
      min 2 ((mapGet c1demo.logBuffers "app").getD []).length) ∧
    getRecentLogs c1demo "nosuch" none = [] :=
  ⟨c7_getRecentLogs.1 c1demo "app" 2 (by decide),
   c7_getRecentLogs.2.2.1 c1demo "nosuch" none (by decide)⟩

/-- C9: `unregisterProcess` leaves every log buffer (and the capacity)
    untouched, removing only the watched mark and, when an id is given,
    that one id binding; re-registering the same name preserves
    `getRecentLogs` exactly; only `cleanup` empties the buffers. -/
theorem c9_unregister_keeps_buffers :
    (∀ (s : LMState) (name : String) (pm_id : Option Nat),
      (unregisterProcess s name pm_id).logBuffers = s.logBuffers ∧
      (unregisterProcess s name pm_id).bufferSize = s.bufferSize ∧
      (unregisterProcess s name pm_id).watchedProcesses =
        setDel s.watchedProcesses name ∧
      (unregisterProcess s name none).processIdToName = s.processIdToName) ∧
    (∀ (s : LMState) (name : String) (pm_id : Option Nat) (newId : Nat)
        (count : Option Nat),
      getRecentLogs (registerProcess (unregisterProcess s name pm_id)
          { name := name, pm_id := newId }) name count =
        getRecentLogs s name count) ∧
    (∀ s : LMState, (cleanup s).logBuffers = [] ∧
      (cleanup s).watchedProcesses = [] ∧ (cleanup s).processIdToName = []) := by
  refine ⟨?_, ?_, ?_⟩
  · intro s name pm_id
    exact ⟨rfl, rfl, rfl, rfl⟩
  · intro s name pm_id newId count
    unfold getRecentLogs registerProcess unregisterProcess
    dsimp only
    by_cases h : (mapGet s.logBuffers name).isSome
    · rw [if_pos h]
    · rw [if_neg h]
      have h0 : mapGet s.logBuffers name = none := by
        cases hm : mapGet s.logBuffers name
        · rfl
        · rw [hm] at h
          simp at h
      rw [mapGet_mapSet_self, h0]
      cases count with
      | none => rfl
      | some c => by_cases hc : c = 0 <;> simp [hc, takeLast]
  · intro s
    exact ⟨rfl, rfl, rfl⟩

/-- C5 scenario: only "a" is watched when the wildcard subscription is
    made. -/
def c5lm1 : LMState :=
  registerProcess (LMState.init 100) { name := "a", pm_id := 1 }

/-- The client after subscribing to `"*"` against `c5lm1`. -/
def c5client : ClientConnection :=
  (handleSubscribe c5lm1 (newClient { authToken := "" } 0) (some "*")).1

/-- C5 scenario continued: "b" becomes watched only after the wildcard
    subscription. -/
def c5lm2 : LMState :=
  registerProcess c5lm1 { name := "b", pm_id := 2 }

/-- C5 counterexample: the wildcard subscriber holds only the snapshot
    ["a"]; when the later-registered "b" logs a line, the entry is
    emitted but delivered to nobody. -/
theorem c5_counterexample :
    c5client.subscriptions = ["a"] ∧
    "b" ∈ getWatchedProcesses c5lm2 ∧
    (handleLog c5lm2 2 .out "hello" "t").2 =
      [("b", mkEntry "t" .out "b" "hello")] ∧
    ingestDeliveries [c5client] (handleLog c5lm2 2 .out "hello" "t").2 = [] := by
  decide

/-- C5 (amended: a `"*"` subscription adds exactly the processes watched
    at subscribe time to the client's subscription set — it is a
    snapshot; entries of a process name outside the subscription set are
    never delivered to that client, so later-registered processes are not
    covered unless subscribed again). -/
theorem c5_wildcard_snapshot :
    (∀ (lm : LMState) (c : ClientConnection), c.authenticated = true →
      ∀ p, p ∈ ((handleSubscribe lm c (some "*")).1).subscriptions ↔
        (p ∈ c.subscriptions ∨ p ∈ getWatchedProcesses lm)) ∧
    (∀ (c : ClientConnection) (name : String) (e : LogEntry),
      name ∉ c.subscriptions → onLogEntry [c] name e = []) := by
  constructor
  · intro lm c h p
    simp [handleSubscribe, h, mem_foldl_setAdd, getWatchedProcesses]
  · intro c name e hsub
    simp [onLogEntry, hsub]

/-- Witness for C5 at a concrete input. -/
theorem c5_wildcard_snapshot_witness :
    ("a" ∈ ((handleSubscribe c5lm1 (newClient { authToken := "" } 0)
        (some "*")).1).subscriptions ↔
      ("a" ∈ (newClient { authToken := "" } 0).subscriptions ∨
        "a" ∈ getWatchedProcesses c5lm1)) ∧
    onLogEntry [c5client] "b" (mkEntry "t" .out "b" "hello") = [] :=
  ⟨c5_wildcard_snapshot.1 c5lm1 (newClient { authToken := "" } 0) (by decide) "a",
   c5_wildcard_snapshot.2 c5client "b" (mkEntry "t" .out "b" "hello") (by decide)⟩

theorem occursIn_nil (l : List Char) : occursIn [] l = true := by
  cases l <;> simp [occursIn, headMatches]

theorem jsIncludes_empty (s : String) : jsIncludes s "" = true := by
  simpa [jsIncludes] using occursIn_nil s.data

/-- C6: the richer `shouldIncludeLog` accepts an entry exactly when the
    kind filter is 'all' or the entry's kind, a set substring filter is
    contained case-insensitively in the message, and a set regex filter
    matches the message — the three axes AND'ed, an absent axis imposing
    no constraint. -/
theorem c6_filter_axes :
    ∀ (e : LogEntry) (f : ClientFilterOptions),
      UtilsB.shouldIncludeLog e f = true ↔
        ((f.log_type = .all ∨ f.log_type = e.type.toFilter) ∧
         (∀ t, f.text = some t →
            jsIncludes (jsToLower e.message) (jsToLower t) = true) ∧
         (∀ r, f.regex = some r → r e.message = true)) := by
  intro e f
  obtain ⟨lt, tx, rx⟩ := f
  simp only [UtilsB.shouldIncludeLog]
  rcases tx with _ | t <;> rcases rx with _ | r <;> dsimp only <;>
    split_ifs with h1 h2 h3 <;>
    simp_all <;>
    try tauto
  · refine ⟨by tauto, ?_⟩
    by_cases ht : t = ""
    · subst ht
      exact jsIncludes_empty _
    · exact h2 ht
  · refine ⟨by tauto, ?_⟩
    by_cases ht : t = ""
    · subst ht
      exact jsIncludes_empty _
    · exact h2 ht

/-- The C8 counterexample string: ESC ESC 'm' 'm'.  One pass removes the
    inner two-character sequence ESC-'m' and thereby glues the remaining
    ESC to the remaining 'm', forming a new escape sequence. -/
def c8str : String := String.mk [escChar, escChar, 'm', 'm']

/-- C8 counterexample: stripping `c8str` once leaves ESC-'m', stripping
    twice leaves nothing, so `stripAnsi` is not idempotent. -/
theorem c8_counterexample :
    stripAnsi c8str = String.mk [escChar, 'm'] ∧
    stripAnsi (stripAnsi c8str) ≠ stripAnsi c8str := by
  decide

/-- C8 (amended: `stripAnsi` is idempotent on every string whose stripped
    form contains no ESC or CSI character — a single pass can splice a
    new escape sequence together out of the removed pieces, as the
    counterexample shows, but when nothing match-starting survives, a
    second pass is the identity; under that proviso, `formatLog` with
    `clean` set maps an already-stripped message to the same output as
    the original message). -/
theorem c8_stripAnsi_idempotent :
    ∀ s : String, noAnsiStart (stripAnsi s) = true →
      (stripAnsi (stripAnsi s) = stripAnsi s ∧
       ∀ (ts : String) (ty : LogType) (pr : String) (opts : ClientOptions),
         opts.clean = true →
         formatLog { timestamp := ts, type := ty, message := stripAnsi s,
                     process := pr } opts =
           formatLog { timestamp := ts, type := ty, message := s,
                       process := pr } opts) := by
  intro s h
  have hid : stripAnsi (stripAnsi s) = stripAnsi s := stripAnsi_of_noAnsiStart h
  refine ⟨hid, ?_⟩
  intro ts ty pr opts hclean
  simp [formatLog, hclean, hid]

/-- Witness for C8 at a concrete input. -/
theorem c8_stripAnsi_idempotent_witness :
    noAnsiStart (stripAnsi (String.mk ([escChar] ++ "[31mhello".data))) = true ∧
    stripAnsi (stripAnsi (String.mk ([escChar] ++ "[31mhello".data))) =
      stripAnsi (String.mk ([escChar] ++ "[31mhello".data)) :=
  ⟨by decide,
   (c8_stripAnsi_idempotent (String.mk ([escChar] ++ "[31mhello".data))
     (by decide)).1⟩

/-- C10: with no auth token a fresh connection starts authenticated; with
    a token configured it starts unauthenticated; every delivery the log
    handler makes goes to an authenticated, subscribed client; and the
    subscribe, unsubscribe and options handlers reject an unauthenticated
    client with an error, leaving it unchanged. -/
theorem c10_auth_gate :
    (∀ (config : ServerConfig) (id : Nat), config.authToken = "" →
      (newClient config id).authenticated = true) ∧
    (∀ (config : ServerConfig) (id : Nat), config.authToken ≠ "" →
      (newClient config id).authenticated = false) ∧
    (∀ (clients : List ClientConnection) (name : String) (e : LogEntry)
        (p : Nat × String), p ∈ onLogEntry clients name e →
      ∃ c ∈ clients, c.id = p.1 ∧ c.authenticated = true ∧
        name ∈ c.subscriptions) ∧
    (∀ (lm : LMState) (c : ClientConnection) (pn : Option String),
      c.authenticated = false →
      handleSubscribe lm c pn = (c, [.errorMsg "Not authenticated"])) ∧
    (∀ (c : ClientConnection) (pn : Option String), c.authenticated = false →
      handleUnsubscribe c pn = (c, [.errorMsg "Not authenticated"])) ∧
    (∀ (c : ClientConnection) (patch : Option ClientOptionsPatch),
      c.authenticated = false →
      handleOptions c patch = (c, [.errorMsg "Not authenticated"])) := by
  refine ⟨?_, ?_, ?_, ?_, ?_, ?_⟩
  · intro config id h
    simp [newClient, h]
  · intro config id h
    simp [newClient, h]
  · intro clients name e p hp
    obtain ⟨c, hc, hfc⟩ := List.mem_filterMap.mp hp
    by_cases hcond : c.authenticated = true ∧ name ∈ c.subscriptions
    · refine ⟨c, hc, ?_, hcond.1, hcond.2⟩
      rw [if_pos hcond] at hfc
      cases hs : sendLog c e with
      | none =>
        rw [hs] at hfc
        simp at hfc
      | some f =>
        rw [hs] at hfc
        simp at hfc
        rw [← hfc]
    · rw [if_neg hcond] at hfc
      simp at hfc
  · intro lm c pn h
    simp [handleSubscribe, h]
  · intro c pn h
    simp [handleUnsubscribe, h]
  · intro c patch h
    simp [handleOptions, h]

/-- Witness for C10 at concrete inputs. -/
theorem c10_auth_gate_witness :
    (newClient { authToken := "" } 0).authenticated = true ∧
    (newClient { authToken := "secret" } 1).authenticated = false ∧
    handleSubscribe (LMState.init 100) (newClient { authToken := "secret" } 1)
        (some "app") =
      (newClient { authToken := "secret" } 1, [.errorMsg "Not authenticated"]) ∧
    handleUnsubscribe (newClient { authToken := "secret" } 1) none =
      (newClient { authToken := "secret" } 1, [.errorMsg "Not authenticated"]) ∧
    handleOptions (newClient { authToken := "secret" } 1) none =
      (newClient { authToken := "secret" } 1, [.errorMsg "Not authenticated"]) :=
  ⟨c10_auth_gate.1 { authToken := "" } 0 rfl,
   c10_auth_gate.2.1 { authToken := "secret" } 1 (by decide),
   c10_auth_gate.2.2.2.1 (LMState.init 100) (newClient { authToken := "secret" } 1)
     (some "app") (by decide),
   c10_auth_gate.2.2.2.2.1 (newClient { authToken := "secret" } 1) none (by decide),
   c10_auth_gate.2.2.2.2.2 (newClient { authToken := "secret" } 1) none (by decide)⟩

theorem deliveredTo_ingest (clients : List ClientConnection)
    (c : ClientConnection) (emitted : List (String × LogEntry))
    (hmem : c ∈ clients) (hids : (clients.map (fun x => x.id)).Nodup)
    (hauth : ∀ c' ∈ clients, c'.authenticated = false → c'.subscriptions = []) :
    deliveredTo c.id (ingestDeliveries clients emitted) =
      (emitted.filter (fun p => decide (p.1 ∈ c.subscriptions) &&
        shouldIncludeLog p.2 c.options.filter)).map
        (fun p => formatLog p.2 c.options) := by
  induction emitted with
  | nil => rfl
  | cons p rest ih =>
    have hstep : ingestDeliveries clients (p :: rest) =
        onLogEntry clients p.1 p.2 ++ ingestDeliveries clients rest := by
      simp [ingestDeliveries]
    rw [hstep, deliveredTo_append,
      onLogEntry_self clients c p.1 p.2 hmem hids hauth, ih]
    by_cases hcond : p.1 ∈ c.subscriptions ∧
        shouldIncludeLog p.2 c.options.filter = true
    · rw [if_pos hcond]
      have hb : (decide (p.1 ∈ c.subscriptions) &&
          shouldIncludeLog p.2 c.options.filter) = true := by
        simp [hcond.1, hcond.2]
      simp [List.filter_cons, hb]
    · rw [if_neg hcond]
      have hb : (decide (p.1 ∈ c.subscriptions) &&
          shouldIncludeLog p.2 c.options.filter) = false := by
        by_cases ha : p.1 ∈ c.subscriptions
        · have hb2 : shouldIncludeLog p.2 c.options.filter = false := by
            cases hbi : shouldIncludeLog p.2 c.options.filter
            · rfl
            · exact absurd ⟨ha, hbi⟩ hcond
          simp [ha, hb2]
        · simp [ha]
      simp [List.filter_cons, hb]

/-- C3: over all the entries one `handleLog` call emits, a client (with
    distinct socket identities, and unauthenticated clients having no
    subscriptions, as the subscribe handler guarantees) receives exactly
    the formatted copies of the entries whose process name it is
    subscribed to and whose content passes its filter — each such entry
    once, in emission order; every other entry is withheld. -/
theorem c3_delivery :
    ∀ (clients : List ClientConnection) (c : ClientConnection) (lm : LMState)
      (pm_id : Nat) (type : LogType) (data now : String),
      c ∈ clients → (clients.map (fun x => x.id)).Nodup →
      (∀ c' ∈ clients, c'.authenticated = false → c'.subscriptions = []) →
      deliveredTo c.id
          (ingestDeliveries clients (handleLog lm pm_id type data now).2) =
        ((handleLog lm pm_id type data now).2.filter
          (fun p => decide (p.1 ∈ c.subscriptions) &&
            shouldIncludeLog p.2 c.options.filter)).map
          (fun p => formatLog p.2 c.options) := by
  intro clients c lm pm_id type data now hmem hids hauth
  exact deliveredTo_ingest clients c _ hmem hids hauth

/-- The concrete client of the C3 witness. -/
def c3client : ClientConnection :=
  { id := 0, authenticated := true, subscriptions := ["app"],
    options := { filter := .all, clean := false, json := true,
                 timestamps := false, log_type := false } }

/-- Witness for C3 at a concrete input. -/
theorem c3_delivery_witness :
    deliveredTo c3client.id
        (ingestDeliveries [c3client] (handleLog c1demo0 1 .out "x\ny" "t").2) =
      ((handleLog c1demo0 1 .out "x\ny" "t").2.filter
        (fun p => decide (p.1 ∈ c3client.subscriptions) &&
          shouldIncludeLog p.2 c3client.options.filter)).map
        (fun p => formatLog p.2 c3client.options) :=
  c3_delivery [c3client] c3client c1demo0 1 .out "x\ny" "t" (by decide)
    (by decide) (by decide)
